import Mathlib

/-! # mdp: a markdown previewer (`main.go`)

A shallow embedding of `main.go` and a verification of its specification.

Conventions of the embedding.

* Go strings and byte slices are lists of characters (`Str`).  Every literal of
  the program is ASCII, where bytes and characters coincide.
* A Go `error` is a value carrying its message (`Error`); a function returning
  `(T, error)` returns `Except Error T`, a function returning `error` returns
  `Option Error` (`none` is `nil`).
* The program's effects (files, the writer `out`, standard error, launched
  processes) are threaded through an explicit `World`, which also keeps the
  ordered `trace` of the calls made to the operating system and the libraries.
* What the operating system answers (whether a file opens, which temporary name
  is allocated, whether a write fails, ...) is an `Env`; the two third-party
  libraries, `blackfriday` and `bluemonday`, are black boxes, the two functions of
  `Libs`.
-/

namespace Mdp

/-- A Go string or byte slice. -/
abbrev Str := List Char

/-- A Go `error` value. -/
structure Error where
  msg : Str
deriving DecidableEq

/-! ## `path/filepath.Base` (Unix: separator `/`, empty volume name) -/

/-- The loop `for len(path) > 0 && os.IsPathSeparator(path[len(path)-1])` of `Base`:
the path without its trailing separators. -/
def stripTrailingSeparators (path : Str) : Str :=
  (path.reverse.dropWhile (fun c => c = '/')).reverse

/-- The last element of a path: what follows its last separator (the whole path
when it has none), as the index loop of `Base` computes it. -/
def lastElement (path : Str) : Str :=
  (path.reverse.takeWhile (fun c => c ≠ '/')).reverse

/-- The function `filepath.Base`: the last element of the path, `.` for the empty
path and `/` for a path of separators only. -/
def filepathBase (path : Str) : Str :=
  if path = [] then ['.']
  else
    let path := lastElement (stripTrailingSeparators path)
    if path = [] then ['/'] else path

/-! ## `html/template`, for the fragment the built-in template uses -/

/-- The record `content` of `main.go`; `Body` has Go type `template.HTML`. -/
structure content where
  Filename : Str
  Title : Str
  Body : Str
deriving DecidableEq

/-- A value handed to an action of a template: a plain string, or a string of type
`template.HTML`, trusted markup. -/
inductive Value where
  | str (s : Str)
  | html (s : Str)
deriving DecidableEq

/-- A node of a parsed template: literal text, or the field action `{{.name}}`. -/
inductive Node where
  | text (s : Str)
  | field (name : Str)
deriving DecidableEq

/-- A parsed template, given by what executing it on a `content` yields. -/
structure Template where
  execute : content → Except Error Str

/-- Splits at the first right delimiter `}}`: what precedes it and what follows. -/
def splitAtClose : Str → Option (Str × Str)
  | [] => none
  | c :: rest =>
    if c = '}' ∧ rest.head? = some '}' then some ([], rest.tail)
    else (splitAtClose rest).map (fun p => (c :: p.1, p.2))

/-- Splits at the first left delimiter `{{`: the text before it, and what follows
it (`none` when there is no left delimiter). -/
def splitAtOpen : Str → Str × Option Str
  | [] => ([], none)
  | c :: rest =>
    if c = '{' ∧ rest.head? = some '{' then ([], some rest.tail)
    else ((c :: (splitAtOpen rest).1), (splitAtOpen rest).2)

/-- Whether a character may occur in a field name. -/
def isIdentChar (c : Char) : Bool :=
  c.isAlphanum || c = '_'

/-- Removes the spaces around the body of an action. -/
def trimSpaces (s : Str) : Str :=
  ((s.dropWhile (fun c => c = ' ')).reverse.dropWhile (fun c => c = ' ')).reverse

/-- An action of the fragment: a dot followed by a field name. -/
def parseAction (body : Str) : Except Error Node :=
  match trimSpaces body with
  | '.' :: name =>
    if name ≠ [] ∧ name.all isIdentChar then .ok (.field name)
    else .error ⟨"template: mdp: unexpected action".toList⟩
  | _ => .error ⟨"template: mdp: unexpected action".toList⟩

/-- The lexer and parser of the fragment: text and field actions.  The fuel bounds
the number of actions, each of which consumes at least its two delimiters. -/
def parseNodes : Nat → Str → Except Error (List Node)
  | 0, _ => .error ⟨"template: mdp: out of fuel".toList⟩
  | fuel + 1, s =>
    match splitAtOpen s with
    | (txt, none) => .ok (if txt = [] then [] else [.text txt])
    | (txt, some rest) =>
      match splitAtClose rest with
      | none => .error ⟨"template: mdp: unclosed action".toList⟩
      | some (body, rest) =>
        match parseAction body, parseNodes fuel rest with
        | .ok n, .ok ns => .ok ((if txt = [] then [] else [.text txt]) ++ n :: ns)
        | .error e, _ => .error e
        | _, .error e => .error e

/-- The table `htmlReplacementTable` of `html/template`. -/
def htmlReplacement (c : Char) : Option Str :=
  if c = Char.ofNat 0 then some [Char.ofNat 0xFFFD]
  else if c = Char.ofNat 34 then some "&#34;".toList
  else if c = '&' then some "&amp;".toList
  else if c = Char.ofNat 39 then some "&#39;".toList
  else if c = '+' then some "&#43;".toList
  else if c = '<' then some "&lt;".toList
  else if c = '>' then some "&gt;".toList
  else none

/-- The function `htmlReplacer` of `html/template` with `htmlReplacementTable`:
each character with an entry in the table is replaced, the others are kept. -/
def htmlReplacer (s : Str) : Str :=
  s.flatMap (fun c => (htmlReplacement c).getD [c])

/-- The escaper `html/template` applies to an action in element content
(`htmlEscaper`, and `rcdataEscaper` on a plain string inside `<title>`): a value
of type `template.HTML` is written verbatim, a plain string is escaped. -/
def htmlEscaper : Value → Str
  | .html s => s
  | .str s => htmlReplacer s

/-- The value of a field of `content`, by name. -/
def evalField (c : content) (name : Str) : Except Error Value :=
  if name = "Filename".toList then .ok (.str c.Filename)
  else if name = "Title".toList then .ok (.str c.Title)
  else if name = "Body".toList then .ok (.html c.Body)
  else .error ⟨"template: mdp: can't evaluate field ".toList ++ name⟩

/-- Executes the nodes of a template of the fragment on a `content`. -/
def execNodes (c : content) : List Node → Except Error Str
  | [] => .ok []
  | .text s :: ns =>
    match execNodes c ns with
    | .ok out => .ok (s ++ out)
    | .error e => .error e
  | .field name :: ns =>
    match evalField c name with
    | .error e => .error e
    | .ok v =>
      match execNodes c ns with
      | .ok out => .ok (htmlEscaper v ++ out)
      | .error e => .error e

/-- The call `template.New("mdp").Parse(text)`, on the fragment. -/
def templateParse (text : Str) : Except Error Template :=
  match parseNodes (text.length + 1) text with
  | .ok ns => .ok ⟨fun c => execNodes c ns⟩
  | .error e => .error e

/-- The constant `defaultTemplate` of `main.go`. -/
def defaultTemplate : Str :=
  ("<!DOCTYPE html>\n<html>\n\n<head>\n" ++
   "  <meta http-equiv=\"content-type\" content=\"text/html; charset=utf-8\">\n" ++
   "  <title>\x7b\x7b.Title\x7d\x7d:\x7b\x7b.Filename\x7d\x7d</title>\n</head>\n\n<body>\n" ++
   "\x7b\x7b.Body\x7d\x7d\n</body>\n\n</html>\n").toList

/-! ## The environment and the world -/

/-- An `io.Reader`, given by what `io.ReadAll` yields on it. -/
abbrev Reader := Except Error Str

/-- The third-party libraries, as black boxes: `blackfriday.Run` and
`bluemonday.UGCPolicy().SanitizeBytes`. -/
structure Libs where
  blackfridayRun : Str → Str
  sanitizeBytes : Str → Str

/-- The answers of the operating system and of the runtime. -/
structure Env where
  /-- The constant `runtime.GOOS`. -/
  goos : Str
  /-- The function `os.Getenv`; the empty string for an unset variable. -/
  getenv : Str → Str
  /-- The standard input. -/
  stdin : Reader
  /-- The function `os.Open`. -/
  osOpen : Str → Except Error Reader
  /-- The function `template.ParseFiles`, on one file. -/
  parseFiles : Str → Except Error Template
  /-- The name `os.CreateTemp` allocates for a directory and a pattern, or its error. -/
  createTemp : Str → Str → Except Error Str
  /-- The result of closing the named file. -/
  close : Str → Option Error
  /-- The error of `os.WriteFile` on the named file, if it fails. -/
  writeFile : Str → Str → Nat → Option Error
  /-- The function `exec.LookPath`. -/
  lookPath : Str → Except Error Str
  /-- The result of running a command to completion. -/
  runCommand : Str → List Str → Option Error
  /-- Whether `os.Remove` succeeds on the named file. -/
  removeSucceeds : Str → Bool
  /-- The text `flag.Usage` prints for the four flags of the program. -/
  usageText : Str

/-- A call to the operating system or to a library, as recorded in the trace. -/
inductive Event where
  | osOpen (name : Str)
  | readAll
  | parseFiles (name : Str)
  | execute (c : content)
  | createTemp (dir pattern : Str)
  | close (name : Str)
  | fprintln (line : Str)
  | writeFile (name data : Str) (perm : Nat)
  | lookPath (file : Str)
  | runCommand (path : Str) (args : List Str)
  | sleep (seconds : Nat)
  | remove (name : Str)
  | usage
deriving DecidableEq

/-- A file: its content and its permission bits. -/
structure File where
  data : Str
  mode : Nat
deriving DecidableEq

/-- The state the program acts on. -/
structure World where
  /-- The file system, by name. -/
  files : Str → Option File
  /-- The bytes handed to the writer `out`, in order. -/
  out : Str
  /-- The bytes written to standard error. -/
  stderr : Str
  /-- The calls made so far, oldest first. -/
  trace : List Event

/-- Records a call in the trace. -/
def World.log (w : World) (e : Event) : World :=
  { w with trace := w.trace ++ [e] }

/-- The effect of a successful `os.CreateTemp`: a new empty file of mode 0600. -/
def World.createFile (w : World) (name : Str) : World :=
  { w with files := fun n => if n = name then some ⟨[], 0o600⟩ else w.files n }

/-- The effect of a successful `os.WriteFile`: an existing file is truncated and
written and keeps its permissions, a missing one is created with `perm`. -/
def World.store (w : World) (name data : Str) (perm : Nat) : World :=
  { w with files := fun n =>
      if n = name then
        match w.files name with
        | some f => some ⟨data, f.mode⟩
        | none => some ⟨data, perm⟩
      else w.files n }

/-- The effect of a successful `os.Remove`. -/
def World.erase (w : World) (name : Str) : World :=
  { w with files := fun n => if n = name then none else w.files n }

/-- The call `fmt.Fprintln(out, s)`: the string and a newline, handed to `out` in
one write; the source discards its result. -/
def fprintlnOut (s : Str) (w : World) : World :=
  { w.log (.fprintln s) with out := w.out ++ s ++ ['\n'] }

/-- The call `fmt.Fprintln(os.Stderr, err)`. -/
def fprintlnStderr (err : Error) (w : World) : World :=
  { w with stderr := w.stderr ++ err.msg ++ ['\n'] }

/-- The call `os.Remove(name)`, whose result the source discards. -/
def osRemove (E : Env) (name : Str) (w : World) : World :=
  if E.removeSucceeds name then (w.log (.remove name)).erase name
  else w.log (.remove name)

/-! ## The program -/

/-- The function `parseContent` of `main.go`. -/
def parseContent (L : Libs) (E : Env) (r : Reader) (tFname filename : Str) (w : World) :
    Except Error Str × World :=
  match r with
  | .error err => (.error err, w.log .readAll)
  | .ok input =>
    let w := w.log .readAll
    let output := L.blackfridayRun input
    let body := L.sanitizeBytes output
    match templateParse defaultTemplate with
    | .error err => (.error err, w)
    | .ok t =>
      let resolved : Except Error Template × World :=
        if tFname ≠ [] then (E.parseFiles tFname, w.log (.parseFiles tFname))
        else (.ok t, w)
      match resolved with
      | (.error err, w) => (.error err, w)
      | (.ok t, w) =>
        let c : content :=
          { Filename := filepathBase filename
            Title := "Markdown Preview Tool".toList
            Body := body }
        match t.execute c with
        | .error err => (.error err, w.log (.execute c))
        | .ok buffer => (.ok buffer, w.log (.execute c))

/-- The constant `FilePermissionReadWrite` of `main.go`. -/
def FilePermissionReadWrite : Nat := 0o644

/-- The call `os.WriteFile(name, data, perm)`. -/
def osWriteFile (E : Env) (name data : Str) (perm : Nat) (w : World) : Option Error × World :=
  match E.writeFile name data perm with
  | some err => (some err, w.log (.writeFile name data perm))
  | none => (none, (w.log (.writeFile name data perm)).store name data perm)

/-- The function `saveHTML` of `main.go`. -/
def saveHTML (E : Env) (outFname data : Str) (w : World) : Option Error × World :=
  osWriteFile E outFname data FilePermissionReadWrite w

/-- The function `preview` of `main.go`. -/
def preview (E : Env) (fname : Str) (w : World) : Option Error × World :=
  let selected : Option (Str × List Str) :=
    if E.goos = "linux".toList then some ("xdg-open".toList, [])
    else if E.goos = "windows".toList then some ("cmd.exe".toList, ["/C".toList, "start".toList])
    else if E.goos = "darwin".toList then some ("open".toList, [])
    else none
  match selected with
  | none => (some ⟨"OS not supported".toList⟩, w)
  | some (cName, cParams) =>
    let cParams := cParams ++ [fname]
    match E.lookPath cName with
    | .error err => (some err, w.log (.lookPath cName))
    | .ok cPath =>
      let w := w.log (.lookPath cName)
      let err := E.runCommand cPath cParams
      let w := w.log (.runCommand cPath cParams)
      let w := w.log (.sleep 2)
      (err, w)

/-- The function `run` of `main.go`; the writer `out` is the field `out` of the world. -/
def run (L : Libs) (E : Env) (filename tFname : Str) (skipPreview pipe : Bool) (w : World) :
    Option Error × World :=
  let opened : Except Error Reader × World :=
    if pipe then (.ok E.stdin, w)
    else (E.osOpen filename, w.log (.osOpen filename))
  match opened with
  | (.error err, w) => (some err, w)
  | (.ok input, w) =>
    match parseContent L E input tFname filename w with
    | (.error err, w) => (some err, w)
    | (.ok htmlData, w) =>
      match E.createTemp [] "mdp*.html".toList with
      | .error err => (some err, w.log (.createTemp [] "mdp*.html".toList))
      | .ok outName =>
        let w := (w.log (.createTemp [] "mdp*.html".toList)).createFile outName
        match E.close outName with
        | some err => (some err, w.log (.close outName))
        | none =>
          let w := w.log (.close outName)
          let w := fprintlnOut outName w
          match saveHTML E outName htmlData w with
          | (some err, w) => (some err, w)
          | (none, w) =>
            if skipPreview then (none, w)
            else
              -- `defer os.Remove(outName)` runs once `preview` has returned
              let r := preview E outName w
              (r.1, osRemove E outName r.2)

/-- The flags of the command line, as `flag.Parse` leaves them; a flag that is not
given has its default value. -/
structure Flags where
  file : Str
  s : Bool
  t : Str
  pipe : Bool

/-- The call `flag.Usage()`: the usage text goes to standard error. -/
def flagUsage (E : Env) (w : World) : World :=
  { w.log .usage with stderr := w.stderr ++ E.usageText }

/-- The end of `main`: an error of `run` is printed to standard error and the
exit status is 1; without an error the status is 0. -/
def exitWith (r : Option Error × World) : Nat × World :=
  match r with
  | (some err, w) => (1, fprintlnStderr err w)
  | (none, w) => (0, w)

/-- The function `main` of `main.go`: the exit status and the final world. -/
def main (L : Libs) (E : Env) (flags : Flags) (w : World) : Nat × World :=
  let filename := flags.file
  let skipPreview := flags.s
  let pipe := flags.pipe
  let dt := E.getenv "MDP_TEMPLATE".toList
  let tFname := if dt ≠ [] then dt else flags.t
  if filename = [] ∧ pipe = false then (1, flagUsage E w)
  else exitWith (run L E filename tFname skipPreview pipe w)

/-! ## Active content in a document

The three kinds of active content the specification names are looked for along the
tokenisation of HTML: a `script` start tag; in a start tag, an attribute whose name
begins with `on`; in a start tag, a URL attribute whose value is a `javascript:` URL.
Attribute values are read as a browser reads them: character references are
decoded, leading control characters and spaces are dropped, tabs and line ends are
dropped anywhere, and the scheme is compared without regard to case.

Where the tokenisation depends on the tree a browser builds, the scan follows
every alternative: after the start tag of a raw text element (`title`, `style`,
...) what follows is read both as raw text and as markup, and a CDATA section both
as a section and as a comment.  A document is reported when any alternative finds
active content. -/

/-- HTML white space. -/
def isHtmlSpace (c : Char) : Bool :=
  c = ' ' || c = '\t' || c = '\n' || c = '\r' || c = Char.ofNat 12

/-- The elements whose content a browser reads as text up to their end tag. -/
inductive RawElem where
  | title | textarea | style | xmp | iframe | noembed | noframes | noscript | plaintext
deriving DecidableEq

/-- The name of a raw text element. -/
def RawElem.tagName : RawElem → Str
  | .title => "title".toList
  | .textarea => "textarea".toList
  | .style => "style".toList
  | .xmp => "xmp".toList
  | .iframe => "iframe".toList
  | .noembed => "noembed".toList
  | .noframes => "noframes".toList
  | .noscript => "noscript".toList
  | .plaintext => "plaintext".toList

/-- The raw text element of a tag name, if it is one. -/
def rawElemOf (name : Str) : Option RawElem :=
  [RawElem.title, .textarea, .style, .xmp, .iframe, .noembed, .noframes, .noscript,
    .plaintext].find? (fun e => e.tagName = name)

/-- The tag whose attributes are being read. -/
inductive Tag where
  /-- An end tag: its attributes are ignored. -/
  | closing
  /-- A start tag, of a raw text element or not. -/
  | opening (raw : Option RawElem)
deriving DecidableEq

/-- How an attribute value is delimited. -/
inductive Quote where
  | double
  | single
  | unquoted
deriving DecidableEq

/-- The scheme looked for, with its colon. -/
def scheme : Str := "javascript:".toList

/-- The attributes whose value is a URL. -/
def urlAttributes : List Str :=
  ["href".toList, "src".toList, "action".toList, "formaction".toList, "data".toList,
   "cite".toList, "poster".toList, "background".toList, "xlink:href".toList]

/-- Whether an attribute name is that of an event handler: `on` and more. -/
def isHandlerName (name : Str) : Bool :=
  decide ("on".toList <+: name) && decide (2 < name.length)

/-- The named character references that yield a character of the scheme or one a
URL parser drops, with the character each yields. -/
def namedRefs : List (Str × Char) :=
  [("Tab;".toList, '\t'), ("NewLine;".toList, '\n'), ("colon;".toList, ':')]

/-- Where the reading of a character reference stands, after its `&`. -/
inductive Ref where
  /-- Right after the `&`. -/
  | start
  /-- Inside a name, the first `i` characters of the `w`-th of `namedRefs` read. -/
  | named (w i : Nat)
  /-- After `&#`. -/
  | number
  /-- After `&#x`. -/
  | hexStart
  /-- Inside a decimal reference, of value `n` so far. -/
  | dec (n : Nat)
  /-- Inside a hexadecimal reference, of value `n` so far. -/
  | hex (n : Nat)
deriving DecidableEq

/-- The state of the scan. -/
inductive Scan where
  /-- In text, outside any tag. -/
  | data
  /-- Right after a `<`. -/
  | tagOpen
  /-- Right after `</`. -/
  | endTagOpen
  /-- Inside a tag name, lower-cased; `closing` for an end tag. -/
  | tagName (closing : Bool) (name : Str)
  /-- Inside a tag, before an attribute name. -/
  | beforeAttr (t : Tag)
  /-- Inside an attribute name, lower-cased. -/
  | attrName (t : Tag) (name : Str)
  /-- After an attribute name; `url` when it is a URL attribute of a start tag. -/
  | afterName (t : Tag) (url : Bool)
  /-- After the `=` of an attribute. -/
  | beforeValue (t : Tag) (url : Bool)
  /-- Inside an attribute value; `some k` when it is the value of a URL attribute
  and what a URL parser keeps of it so far is the first `k` characters of the
  scheme, `none` otherwise. -/
  | value (t : Tag) (q : Quote) (m : Option (Fin 11))
  /-- Inside a character reference of such a value. -/
  | ref (t : Tag) (q : Quote) (k : Fin 11) (r : Ref)
  /-- Right after `<!`. -/
  | declOpen
  /-- Right after `<!-`. -/
  | declDash
  /-- After `<![`, the first `i` characters of `[CDATA[` read. -/
  | cdataOpen (i : Nat)
  /-- Inside a declaration or a bogus comment, up to the next `>`. -/
  | bogus
  /-- Right after `<!--`. -/
  | commentStart
  /-- Right after `<!---`. -/
  | commentStartDash
  /-- Inside a comment. -/
  | comment
  /-- Inside a comment, after a `-`. -/
  | commentEndDash
  /-- Inside a comment, after `--`. -/
  | commentEnd
  /-- Inside a comment, after `--!`. -/
  | commentEndBang
  /-- Inside a CDATA section, after `n` closing brackets (two at most counted). -/
  | cdata (n : Fin 3)
  /-- Inside the text of a raw text element. -/
  | raw (e : RawElem)
  /-- Inside the text of a raw text element, right after a `<`. -/
  | rawLt (e : RawElem)
  /-- Inside the text of a raw text element, after `</` and the first `i`
  characters of the name of the element. -/
  | rawEnd (e : RawElem) (i : Nat)
  /-- Active content has been found. -/
  | bad
deriving DecidableEq

/-- Whether active content has been found. -/
def Scan.isBad : Scan → Bool
  | .bad => true
  | _ => false

/-- The states after the `>` of a tag: text, and for the start tag of a raw text
element also the raw text of the element. -/
def emit : Tag → List Scan
  | .closing => [.data]
  | .opening none => [.data]
  | .opening (some e) => [.data, .raw e]

/-- The tag of a completed tag name; `none` for the start tag `script`. -/
def tagOf (closing : Bool) (name : Str) : Option Tag :=
  if closing then some .closing
  else if name = "script".toList then none
  else some (.opening (rawElemOf name))

/-- Whether the attribute of that name, in that tag, has a URL as value. -/
def isUrlAttr (t : Tag) (name : Str) : Bool :=
  decide (t ≠ .closing) && decide (name ∈ urlAttributes)

/-- The reading of a value at its start. -/
def startMatch (url : Bool) : Option (Fin 11) :=
  if url then some ⟨0, by decide⟩ else none

/-- One more character of the URL of which the first `k` characters of the scheme
have been kept: a tab or a line end is dropped, so is a leading control character
or space, a character of the scheme advances, any other ends the comparison. -/
def advance (t : Tag) (q : Quote) (k : Fin 11) (c : Char) : Scan :=
  if c = '\t' ∨ c = '\n' ∨ c = '\r' then .value t q (some k)
  else if c = Char.ofNat 0 then .value t q none
  else if k.val = 0 ∧ c.toNat ≤ 32 then .value t q (some k)
  else if c.toLower = scheme.getD k.val ' ' then
    if h : k.val + 1 < 11 then .value t q (some ⟨k.val + 1, h⟩) else .bad
  else .value t q none

/-- The character of a numeric reference goes to the URL; the references that
do not yield an ASCII character end the comparison. -/
def advanceCode (t : Tag) (q : Quote) (k : Fin 11) (n : Nat) : Scan :=
  if 0 < n ∧ n < 128 then advance t q k (Char.ofNat n) else .value t q none

/-- One character of an attribute value. -/
def stepValue (t : Tag) (q : Quote) (m : Option (Fin 11)) (c : Char) : List Scan :=
  if (q = .double ∧ c = Char.ofNat 34) ∨ (q = .single ∧ c = Char.ofNat 39) ∨
      (q = .unquoted ∧ isHtmlSpace c) then [.beforeAttr t]
  else if q = .unquoted ∧ c = '>' then emit t
  else
    match m with
    | none => [.value t q none]
    | some k => if c = '&' then [.ref t q k .start] else [advance t q k c]

/-- The character that ended a character reference without belonging to it is
read again, in the value. -/
def resume (s : Scan) (c : Char) : List Scan :=
  match s with
  | .value t q m => stepValue t q m c
  | s => [s]

/-- The value of a decimal or hexadecimal digit. -/
def digitValue (hex : Bool) (c : Char) : Option Nat :=
  if c.isDigit then some (c.toNat - '0'.toNat)
  else if hex ∧ 'a'.toNat ≤ c.toLower.toNat ∧ c.toLower.toNat ≤ 'f'.toNat then
    some (c.toLower.toNat - 'a'.toNat + 10)
  else none

/-- One character of a character reference in the value of a URL attribute. What
is not a reference is text that begins with `&`, which ends the comparison. -/
def stepRef (t : Tag) (q : Quote) (k : Fin 11) (r : Ref) (c : Char) : List Scan :=
  match r with
  | .start =>
    if c = '#' then [.ref t q k .number]
    else
      match namedRefs.findIdx? (fun p => p.1.head? = some c) with
      | some w => [.ref t q k (.named w 1)]
      | none => stepValue t q none c
  | .named w i =>
    match namedRefs.get? w with
    | none => stepValue t q none c
    | some (name, ch) =>
      if name.get? i = some c then
        if i + 1 = name.length then [advance t q k ch] else [.ref t q k (.named w (i + 1))]
      else stepValue t q none c
  | .number =>
    if c = 'x' ∨ c = 'X' then [.ref t q k .hexStart]
    else
      match digitValue false c with
      | some d => [.ref t q k (.dec d)]
      | none => stepValue t q none c
  | .hexStart =>
    match digitValue true c with
    | some d => [.ref t q k (.hex d)]
    | none => stepValue t q none c
  | .dec n =>
    match digitValue false c with
    | some d => [.ref t q k (.dec (10 * n + d))]
    | none => if c = ';' then [advanceCode t q k n] else resume (advanceCode t q k n) c
  | .hex n =>
    match digitValue true c with
    | some d => [.ref t q k (.hex (16 * n + d))]
    | none => if c = ';' then [advanceCode t q k n] else resume (advanceCode t q k n) c

/-- The transition of the scan on one character: the states that may follow. -/
def step : Scan → Char → List Scan
  | .data, c => if c = '<' then [.tagOpen] else [.data]
  | .tagOpen, c =>
    if c.isAlpha then [.tagName false [c.toLower]]
    else if c = '!' then [.declOpen]
    else if c = '/' then [.endTagOpen]
    else if c = '?' then [.bogus]
    else if c = '<' then [.tagOpen]
    else [.data]
  | .endTagOpen, c =>
    if c.isAlpha then [.tagName true [c.toLower]]
    else if c = '>' then [.data]
    else [.bogus]
  | .tagName closing name, c =>
    if isHtmlSpace c ∨ c = '/' ∨ c = '>' then
      match tagOf closing name with
      | none => [.bad]
      | some t => if c = '>' then emit t else [.beforeAttr t]
    else [.tagName closing (name ++ [c.toLower])]
  | .beforeAttr t, c =>
    if isHtmlSpace c ∨ c = '/' then [.beforeAttr t]
    else if c = '>' then emit t
    else [.attrName t [c.toLower]]
  | .attrName t name, c =>
    if isHtmlSpace c ∨ c = '/' ∨ c = '>' ∨ c = '=' then
      if t ≠ .closing ∧ isHandlerName name then [.bad]
      else if isHtmlSpace c then [.afterName t (isUrlAttr t name)]
      else if c = '/' then [.beforeAttr t]
      else if c = '>' then emit t
      else [.beforeValue t (isUrlAttr t name)]
    else [.attrName t (name ++ [c.toLower])]
  | .afterName t url, c =>
    if isHtmlSpace c then [.afterName t url]
    else if c = '/' then [.beforeAttr t]
    else if c = '=' then [.beforeValue t url]
    else if c = '>' then emit t
    else [.attrName t [c.toLower]]
  | .beforeValue t url, c =>
    if isHtmlSpace c then [.beforeValue t url]
    else if c = Char.ofNat 34 then [.value t .double (startMatch url)]
    else if c = Char.ofNat 39 then [.value t .single (startMatch url)]
    else if c = '>' then emit t
    else stepValue t .unquoted (startMatch url) c
  | .value t q m, c => stepValue t q m c
  | .ref t q k r, c => stepRef t q k r c
  | .declOpen, c =>
    if c = '-' then [.declDash]
    else if c = '[' then [.cdataOpen 1]
    else if c = '>' then [.data]
    else [.bogus]
  | .declDash, c =>
    if c = '-' then [.commentStart]
    else if c = '>' then [.data]
    else [.bogus]
  | .cdataOpen i, c =>
    if "[CDATA[".toList.get? i = some c then
      if i + 1 = 7 then [.cdata ⟨0, by decide⟩, .bogus] else [.cdataOpen (i + 1)]
    else if c = '>' then [.data]
    else [.bogus]
  | .bogus, c => if c = '>' then [.data] else [.bogus]
  | .commentStart, c =>
    if c = '-' then [.commentStartDash]
    else if c = '>' then [.data]
    else [.comment]
  | .commentStartDash, c =>
    if c = '-' then [.commentEnd]
    else if c = '>' then [.data]
    else [.comment]
  | .comment, c => if c = '-' then [.commentEndDash] else [.comment]
  | .commentEndDash, c => if c = '-' then [.commentEnd] else [.comment]
  | .commentEnd, c =>
    if c = '>' then [.data]
    else if c = '!' then [.commentEndBang]
    else if c = '-' then [.commentEnd]
    else [.comment]
  | .commentEndBang, c =>
    if c = '-' then [.commentEndDash]
    else if c = '>' then [.data]
    else [.comment]
  | .cdata n, c =>
    if c = ']' then [.cdata (if h : n.val + 1 < 3 then ⟨n.val + 1, h⟩ else n)]
    else if c = '>' ∧ n.val = 2 then [.data]
    else [.cdata ⟨0, by decide⟩]
  | .raw e, c => if c = '<' ∧ e ≠ .plaintext then [.rawLt e] else [.raw e]
  | .rawLt e, c =>
    if c = '/' then [.rawEnd e 0]
    else if c = '<' then [.rawLt e]
    else [.raw e]
  | .rawEnd e i, c =>
    if e.tagName.get? i = some c.toLower then [.rawEnd e (i + 1)]
    else if i = e.tagName.length ∧ (isHtmlSpace c ∨ c = '/') then [.beforeAttr .closing]
    else if i = e.tagName.length ∧ c = '>' then [.data]
    else if c = '<' then [.rawLt e]
    else [.raw e]
  | .bad, _ => [.bad]

/-- The states that may follow some of the given states on one character. -/
def stepAll (qs : List Scan) (c : Char) : List Scan :=
  qs.flatMap (fun q => step q c)

/-- The states the scan may be in after a document read from the given states. -/
def scanAll (qs : List Scan) (s : Str) : List Scan :=
  s.foldl stepAll qs

/-- Whether a document holds a `script` tag, an `on*` attribute or a `javascript:`
URL. The document is read with a line end after it, which completes what it leaves
open at its end: a tag name, an attribute name, a character reference. -/
def unsafeMarkup (s : Str) : Bool :=
  (scanAll [.data] (s ++ ['\n'])).any Scan.isBad

/-- The states in which a line end leaves the scan, active content apart. -/
def Scan.resting : Scan → Bool
  | .data => true
  | .bogus => true
  | .comment => true
  | .cdata n => decide (n.val = 0)
  | .raw _ => true
  | .beforeAttr _ => true
  | .afterName _ _ => true
  | .beforeValue _ _ => true
  | .value _ q _ => decide (q ≠ .unquoted)
  | _ => false

/-- What follows the line end that begins the tail of the page, and the line end
the scan adds. -/
def tailRest : Str := "</body>\n\n</html>\n\n".toList

/-- No state of the list reports active content. -/
def allClear (qs : List Scan) : Bool :=
  qs.all (fun q => !q.isBad)

/-- A state in which the scan may stop: active content found, or a resting state. -/
def Scan.settled (q : Scan) : Bool :=
  q.isBad || q.resting

/-! ## Sample libraries, environments and worlds -/

/-- A world with no file, nothing written and an empty trace. -/
def World.empty : World :=
  { files := fun _ => none, out := [], stderr := [], trace := [] }

/-- Stand-ins for the two libraries in the sample runs. They are not the
libraries: the transform wraps its input in a paragraph, and the sanitizer escapes
every character `html/template` escapes, so that no markup at all comes out of it. -/
def sampleLibs : Libs :=
  { blackfridayRun := fun s => "<p>".toList ++ s ++ "</p>\n".toList
    sanitizeBytes := fun s => htmlReplacer s }

/-- A sample environment: Linux, one markdown file, no template file, and every
other call succeeding. -/
def sampleEnv : Env :=
  { goos := "linux".toList
    getenv := fun _ => []
    stdin := .ok "plain text".toList
    osOpen := fun n =>
      if n = "docs/README.md".toList then .ok (.ok "# Hello".toList)
      else .error ⟨"open: no such file or directory".toList⟩
    parseFiles := fun _ => .error ⟨"open: no such file or directory".toList⟩
    createTemp := fun _ _ => .ok "/tmp/mdp42.html".toList
    close := fun _ => none
    writeFile := fun _ _ _ => none
    lookPath := fun f => .ok ("/usr/bin/".toList ++ f)
    runCommand := fun _ _ => none
    removeSucceeds := fun _ => true
    usageText := "Usage of mdp:\n".toList }

/-- The sample environment with a full disk: `os.WriteFile` fails. -/
def fullDiskEnv : Env :=
  { sampleEnv with writeFile := fun _ _ _ => some ⟨"write: no space left on device".toList⟩ }

/-- The sample environment with `MDP_TEMPLATE` set. -/
def templateEnv : Env :=
  { sampleEnv with
    getenv := fun n => if n = "MDP_TEMPLATE".toList then "env.tmpl".toList else [] }

/-- The sample environment with a template file `page.tmpl` whose text is the
single action that writes `Body`. -/
def overrideEnv : Env :=
  { sampleEnv with
    parseFiles := fun n =>
      if n = "page.tmpl".toList then .ok ⟨fun c => .ok c.Body⟩
      else .error ⟨"open: no such file or directory".toList⟩ }

/-- The sample environment on a platform `preview` does not know. -/
def plan9Env : Env :=
  { sampleEnv with goos := "plan9".toList }

/-- The text of the built-in template before the title. -/
def pageHead : Str :=
  ("<!DOCTYPE html>\n<html>\n\n<head>\n" ++
   "  <meta http-equiv=\"content-type\" content=\"text/html; charset=utf-8\">\n" ++
   "  <title>").toList

/-- The text of the built-in template between the title and the body. -/
def pageMiddle : Str :=
  "</title>\n</head>\n\n<body>\n".toList

/-- The text of the built-in template after the body. -/
def pageTail : Str :=
  "\n</body>\n\n</html>\n".toList

/-- The nodes of the built-in template. -/
def defaultNodes : List Node :=
  [.text pageHead, .field "Title".toList, .text ":".toList, .field "Filename".toList,
   .text pageMiddle, .field "Body".toList, .text pageTail]

/-- The content record `parseContent` builds for an input and a display name. -/
def renderContext (L : Libs) (input filename : Str) : content :=
  { Filename := filepathBase filename
    Title := "Markdown Preview Tool".toList
    Body := L.sanitizeBytes (L.blackfridayRun input) }

/-- The document the built-in template yields for an input and a display name. -/
def defaultPage (L : Libs) (input filename : Str) : Str :=
  pageHead ++ "Markdown Preview Tool".toList ++ ":".toList ++
    htmlReplacer (filepathBase filename) ++ pageMiddle ++
    L.sanitizeBytes (L.blackfridayRun input) ++ pageTail

/-- Whether a call is one `parseContent` makes. -/
def Event.isRender : Event → Bool
  | .readAll => true
  | .parseFiles _ => true
  | .execute _ => true
  | _ => false

/-- Whether a call belongs to the launch of the viewer and the cleanup after it. -/
def Event.isViewer : Event → Bool
  | .lookPath _ => true
  | .runCommand _ _ => true
  | .sleep _ => true
  | .remove _ => true
  | _ => false

/-- The end of `preview`, once the command and its parameters are selected: the
command is looked up and, when found, run on the parameters, and two seconds pass. -/
def launchViewer (E : Env) (cName : Str) (cParams : List Str) (w : World) :
    Option Error × World :=
  match E.lookPath cName with
  | .error err => (some err, w.log (.lookPath cName))
  | .ok cPath =>
    (E.runCommand cPath cParams,
      ((w.log (.lookPath cName)).log (.runCommand cPath cParams)).log (.sleep 2))

/-- The calls `run` makes between rendering and the viewer: the temporary file is
created and closed, its name is printed, and the page is written to it. -/
def artifactCalls (outName htmlData : Str) : List Event :=
  [.createTemp [] "mdp*.html".toList, .close outName, .fprintln outName,
   .writeFile outName htmlData FilePermissionReadWrite]

/-! ## The base name, the escaper and the scan on samples -/

theorem filepathBase_samples :
    filepathBase "docs/README.md".toList = "README.md".toList ∧
    filepathBase "README.md".toList = "README.md".toList ∧
    filepathBase "/tmp/notes/".toList = "notes".toList ∧
    filepathBase "///".toList = "/".toList ∧
    filepathBase "".toList = ".".toList := by
  decide

/-- The base name of a path that ends in a separator and a name is that name. -/
theorem filepathBase_join (dir name : Str) (hne : name ≠ []) (hsep : ∀ c ∈ name, c ≠ '/') :
    filepathBase (dir ++ '/' :: name) = name := by
  have hrev : (dir ++ '/' :: name).reverse = name.reverse ++ '/' :: dir.reverse := by
    simp
  have hstrip : stripTrailingSeparators (dir ++ '/' :: name) = dir ++ '/' :: name := by
    unfold stripTrailingSeparators
    rw [hrev]
    cases hn : name.reverse with
    | nil => exact absurd (List.reverse_eq_nil_iff.mp hn) hne
    | cons c rest =>
      have hc : c ≠ '/' := hsep c (by
        have : c ∈ name.reverse := by rw [hn]; exact List.mem_cons_self c rest
        exact List.mem_reverse.mp this)
      rw [List.cons_append, List.dropWhile_cons_of_neg (by simpa using hc), ← List.cons_append,
        ← hn, ← hrev, List.reverse_reverse]
  have hlast : lastElement (dir ++ '/' :: name) = name := by
    unfold lastElement
    rw [hrev, List.takeWhile_append_of_pos (by
      intro c hc
      simpa using hsep c (List.mem_reverse.mp hc))]
    simp
  unfold filepathBase
  rw [if_neg (by simp), hstrip, hlast, if_neg hne]

theorem htmlReplacer_sample :
    htmlReplacer "<a href=\"x\">&</a>".toList =
      "&lt;a href=&#34;x&#34;&gt;&amp;&lt;/a&gt;".toList := by
  decide

set_option maxRecDepth 100000 in
/-- Documents the scan reports. -/
theorem unsafeMarkup_reported :
    unsafeMarkup "<p>hi</p><script>alert(1)</script>".toList = true ∧
    unsafeMarkup "<SCRIPT src=x.js>".toList = true ∧
    unsafeMarkup "<p>hi</p><script".toList = true ∧
    unsafeMarkup "<img src=\"a.png\" onerror=\"alert(1)\">".toList = true ∧
    unsafeMarkup "<a b='x'onclick=1>".toList = true ∧
    unsafeMarkup "<a href=\"javascript:alert(1)\">x</a>".toList = true ∧
    unsafeMarkup "<a href= JavaScript:alert(1)>x</a>".toList = true ∧
    unsafeMarkup "<a href=\"&#106;avascript:alert(1)\">x</a>".toList = true ∧
    unsafeMarkup "<a href='&#x6A;ava&Tab;script&colon;alert(1)'>x</a>".toList = true ∧
    unsafeMarkup "<a href=\"java\tscript:alert(1)\">x</a>".toList = true ∧
    unsafeMarkup "<form action=javascript:alert(1)>".toList = true ∧
    unsafeMarkup "<!-- > <a b=\" --><script>alert(1)</script><i c=\"\">".toList = true ∧
    unsafeMarkup "<style><a b=\"</style><script>alert(1)</script>".toList = true ∧
    unsafeMarkup "<textarea><a b=\"</textarea><script>alert(1)</script>".toList = true ∧
    unsafeMarkup "<svg><style><script>alert(1)</script>".toList = true := by
  decide

set_option maxRecDepth 100000 in
/-- Documents the scan does not report. -/
theorem unsafeMarkup_clear :
    unsafeMarkup "<h1>Hello</h1>\n".toList = false ∧
    unsafeMarkup "<h1 id=\"javascript:alert(1)\">Hi</h1>\n".toList = false ∧
    unsafeMarkup "<p>onclick=javascript:alert(1) &lt;script&gt;</p>".toList = false ∧
    unsafeMarkup "<a href=\"https://example.org/on\" title=\"one\">x</a>".toList = false ∧
    unsafeMarkup "<a href=\"/javascript:notes\">x</a>".toList = false ∧
    unsafeMarkup "</a href=\"javascript:x\" onclick=1>".toList = false ∧
    unsafeMarkup "<!-- <script>alert(1)</script> -->ok".toList = false ∧
    unsafeMarkup "<p>a < b</p>".toList = false := by
  decide

set_option maxRecDepth 100000 in
/-- The scan reads through the built-in page: a page around an unsanitized body is
reported, in the body and in the title alike. -/
theorem unsafeMarkup_page_reported :
    unsafeMarkup (pageHead ++ "Markdown Preview Tool:notes.md".toList ++ pageMiddle ++
      "<p onclick=\"alert(1)\">hi</p>".toList ++ pageTail) = true ∧
    unsafeMarkup (pageHead ++ "Markdown Preview Tool:</title><script>".toList ++ pageMiddle ++
      "<p>hi</p>".toList ++ pageTail) = true ∧
    unsafeMarkup (pageHead ++ "Markdown Preview Tool:notes.md".toList ++ pageMiddle ++
      "<p>hi</p>".toList ++ pageTail) = false := by
  decide

/-! ## The template engine on the built-in template -/

set_option maxRecDepth 100000 in
theorem parseNodes_default :
    parseNodes (defaultTemplate.length + 1) defaultTemplate = .ok defaultNodes := by
  rfl

theorem templateParse_default :
    templateParse defaultTemplate = .ok ⟨fun c => execNodes c defaultNodes⟩ := by
  unfold templateParse
  rw [parseNodes_default]

theorem htmlReplacer_title :
    htmlReplacer "Markdown Preview Tool".toList = "Markdown Preview Tool".toList := by
  rfl

theorem execNodes_default (c : content) :
    execNodes c defaultNodes =
      .ok (pageHead ++ htmlReplacer c.Title ++ ":".toList ++ htmlReplacer c.Filename ++
        pageMiddle ++ c.Body ++ pageTail) := by
  have h1 : evalField c "Title".toList = .ok (.str c.Title) := by rfl
  have h2 : evalField c "Filename".toList = .ok (.str c.Filename) := by rfl
  have h3 : evalField c "Body".toList = .ok (.html c.Body) := by rfl
  simp only [defaultNodes, execNodes, h1, h2, h3, htmlEscaper, List.append_nil, List.append_assoc]

/-- The result and the trace of `parseContent` on the built-in template. -/
theorem parseContent_default (L : Libs) (E : Env) (input filename : Str) (w : World) :
    parseContent L E (.ok input) [] filename w =
      (.ok (defaultPage L input filename),
        (w.log .readAll).log (.execute (renderContext L input filename))) := by
  have hc : (⟨fun c => execNodes c defaultNodes⟩ : Template).execute
      (renderContext L input filename) = .ok (defaultPage L input filename) := by
    show execNodes _ defaultNodes = _
    rw [execNodes_default]
    show Except.ok (pageHead ++ htmlReplacer "Markdown Preview Tool".toList ++ _ ++ _ ++ _
      ++ _ ++ _) = _
    rw [htmlReplacer_title]
    rfl
  unfold parseContent
  simp only [templateParse_default]
  simp only [ne_eq, not_true_eq_false, if_false]
  simp only [renderContext] at hc
  simp only [hc, renderContext]

/-! ## The scan of the rendered page -/

theorem htmlReplacement_no_lt (a c : Char) (h : c ∈ (htmlReplacement a).getD [a]) :
    c ≠ '<' := by
  unfold htmlReplacement at h
  split_ifs at h with h0 h1 h2 h3 h4 h5 h6
  all_goals simp only [Option.getD_some, Option.getD_none, String.toList, List.mem_cons,
    List.mem_singleton, List.not_mem_nil, or_false] at h
  all_goals first
    | (rcases h with h | h | h | h | h <;> (subst h; decide))
    | (rcases h with h | h | h | h <;> (subst h; decide))
    | (subst h; decide)
    | (subst h; exact h5)

theorem htmlReplacer_no_lt (s : Str) : ∀ c ∈ htmlReplacer s, c ≠ '<' := by
  intro c hc
  simp only [htmlReplacer, List.mem_flatMap] at hc
  obtain ⟨a, _, ha⟩ := hc
  exact htmlReplacement_no_lt a c ha

theorem scanAll_append (qs : List Scan) (s t : Str) :
    scanAll qs (s ++ t) = scanAll (scanAll qs s) t := by
  simp [scanAll, List.foldl_append]

theorem stepAll_append (qs rs : List Scan) (c : Char) :
    stepAll (qs ++ rs) c = stepAll qs c ++ stepAll rs c := by
  simp [stepAll, List.flatMap_append]

theorem scanAll_union (qs rs : List Scan) (s : Str) :
    scanAll (qs ++ rs) s = scanAll qs s ++ scanAll rs s := by
  induction s generalizing qs rs with
  | nil => rfl
  | cons c s ih =>
    show scanAll (stepAll (qs ++ rs) c) s = scanAll (stepAll qs c) s ++ scanAll (stepAll rs c) s
    rw [stepAll_append, ih]

theorem scanAll_nil (s : Str) : scanAll [] s = [] := by
  induction s with
  | nil => rfl
  | cons c s ih => exact ih

theorem mem_scanAll (qs : List Scan) (s : Str) (r : Scan) :
    r ∈ scanAll qs s ↔ ∃ q ∈ qs, r ∈ scanAll [q] s := by
  induction qs with
  | nil => simp [scanAll_nil]
  | cons q qs ih =>
    have h : q :: qs = [q] ++ qs := rfl
    rw [h, scanAll_union, List.mem_append, ih]
    simp

theorem scanAll_of_no_lt (q : Scan) (hq : q = .data ∨ q = .raw .title) (s : Str)
    (h : ∀ c ∈ s, c ≠ '<') : scanAll [q] s = [q] := by
  induction s with
  | nil => rfl
  | cons c s ih =>
    have hc : c ≠ '<' := h c (List.mem_cons_self c s)
    have hs : ∀ d ∈ s, d ≠ '<' := fun d hd => h d (List.mem_cons_of_mem c hd)
    have : stepAll [q] c = [q] := by
      rcases hq with hq | hq <;> subst hq <;> simp [stepAll, step, hc]
    show scanAll (stepAll [q] c) s = [q]
    rw [this]
    exact ih hs

set_option maxRecDepth 100000 in
theorem scanAll_pageHead :
    scanAll [.data] (pageHead ++ "Markdown Preview Tool".toList ++ ":".toList) =
      [.data, .raw .title] := by
  decide

set_option maxRecDepth 100000 in
theorem scanAll_pageMiddle : scanAll [.data, .raw .title] pageMiddle = [.data, .data] := by
  decide

set_option maxRecDepth 100000 in
set_option maxHeartbeats 4000000 in
theorem resting_tail (r : Scan) (hr : r.resting = true) :
    allClear (scanAll [r] tailRest) = true := by
  cases r with
  | data => decide
  | bogus => decide
  | comment => decide
  | cdata n => fin_cases n <;> decide
  | raw e => cases e <;> decide
  | beforeAttr t => rcases t with _ | _ | e <;> first | decide | (cases e <;> decide)
  | afterName t u =>
    cases u <;> rcases t with _ | _ | e <;> first | decide | (cases e <;> decide)
  | beforeValue t u =>
    cases u <;> rcases t with _ | _ | e <;> first | decide | (cases e <;> decide)
  | value t q m =>
    cases q with
    | unquoted => exact absurd hr (by simp [Scan.resting])
    | double =>
      rcases m with _ | k <;> rcases t with _ | _ | e <;>
        first
          | decide
          | (cases e <;> decide)
          | (fin_cases k <;> decide)
          | (cases e <;> fin_cases k <;> decide)
    | single =>
      rcases m with _ | k <;> rcases t with _ | _ | e <;>
        first
          | decide
          | (cases e <;> decide)
          | (fin_cases k <;> decide)
          | (cases e <;> fin_cases k <;> decide)
  | _ => simp [Scan.resting] at hr

theorem advance_cases (t : Tag) (q : Quote) (k : Fin 11) (c : Char) :
    advance t q k c = .bad ∨ ∃ m, advance t q k c = .value t q m := by
  unfold advance
  split_ifs <;> simp

theorem advanceCode_cases (t : Tag) (q : Quote) (k : Fin 11) (n : Nat) :
    advanceCode t q k n = .bad ∨ ∃ m, advanceCode t q k n = .value t q m := by
  unfold advanceCode
  split_ifs
  · exact advance_cases t q k _
  · exact Or.inr ⟨none, rfl⟩

theorem stepValue_newline (t : Tag) (q : Quote) (m : Option (Fin 11)) :
    ∀ r ∈ stepValue t q m '\n', r.settled = true := by
  intro r hr
  cases q <;> rcases m with _ | k <;>
    simp [stepValue, advance, isHtmlSpace] at hr <;> subst hr <;> rfl

theorem resume_newline (s : Scan) (hs : s = .bad ∨ ∃ t q m, s = .value t q m) :
    ∀ r ∈ resume s '\n', r.settled = true := by
  rcases hs with hs | ⟨t, q, m, hs⟩
  · subst hs
    intro r hr
    simp [resume] at hr
    subst hr
    rfl
  · subst hs
    exact stepValue_newline t q m

theorem stepRef_newline (t : Tag) (q : Quote) (k : Fin 11) (r : Ref) :
    ∀ x ∈ stepRef t q k r '\n', x.settled = true := by
  cases r with
  | start =>
    have h : stepRef t q k .start '\n' = stepValue t q none '\n' := by rfl
    rw [h]; exact stepValue_newline t q none
  | named w i =>
    have h : stepRef t q k (.named w i) '\n' = stepValue t q none '\n' := by
      have hn : ∀ p ∈ namedRefs, p.1.get? i ≠ some '\n' := by
        intro p hp hget
        have hmem := List.get?_mem hget
        simp [namedRefs] at hp
        rcases hp with hp | hp | hp <;> subst hp <;> revert hmem <;> decide
      cases hw : namedRefs.get? w with
      | none => simp only [stepRef, hw]
      | some p =>
        obtain ⟨name, ch⟩ := p
        have := hn _ (List.get?_mem hw)
        simp only [stepRef, hw, this, if_false]
    rw [h]; exact stepValue_newline t q none
  | number =>
    have h : stepRef t q k .number '\n' = stepValue t q none '\n' := by rfl
    rw [h]; exact stepValue_newline t q none
  | hexStart =>
    have h : stepRef t q k .hexStart '\n' = stepValue t q none '\n' := by rfl
    rw [h]; exact stepValue_newline t q none
  | dec n =>
    have h : stepRef t q k (.dec n) '\n' = resume (advanceCode t q k n) '\n' := by
      simp [stepRef, digitValue]
    rw [h]
    apply resume_newline
    rcases advanceCode_cases t q k n with h | ⟨m, h⟩
    · exact Or.inl h
    · exact Or.inr ⟨t, q, m, h⟩
  | hex n =>
    have h : stepRef t q k (.hex n) '\n' = resume (advanceCode t q k n) '\n' := by
      simp [stepRef, digitValue]
    rw [h]
    apply resume_newline
    rcases advanceCode_cases t q k n with h | ⟨m, h⟩
    · exact Or.inl h
    · exact Or.inr ⟨t, q, m, h⟩

theorem step_newline (q : Scan) : ∀ r ∈ step q '\n', r.settled = true := by
  cases q with
  | value t q m => exact stepValue_newline t q m
  | ref t q k r => exact stepRef_newline t q k r
  | tagName closing name =>
    intro r hr
    have h : step (.tagName closing name) '\n' =
        match tagOf closing name with
        | none => [.bad]
        | some t => [.beforeAttr t] := by
      simp [step, isHtmlSpace]
    rw [h] at hr
    cases ht : tagOf closing name <;> rw [ht] at hr <;> simp at hr <;> subst hr <;> rfl
  | attrName t name =>
    intro r hr
    simp only [step, isHtmlSpace] at hr
    simp at hr
    split_ifs at hr <;> simp at hr <;> subst hr <;> rfl
  | beforeValue t u =>
    intro r hr
    simp [step, isHtmlSpace] at hr
    subst hr; rfl
  | cdataOpen i =>
    intro r hr
    have hget : "[CDATA[".toList.get? i ≠ some '\n' := by
      intro hget
      have := List.get?_mem hget
      revert this
      decide
    simp only [step] at hr
    rw [if_neg hget] at hr
    simp at hr
    subst hr; rfl
  | rawEnd e i =>
    intro r hr
    have hget : e.tagName.get? i ≠ some '\n' := by
      intro hget
      have := List.get?_mem hget
      revert this
      cases e <;> decide
    have hl : ('\n' : Char).toLower = '\n' := by decide
    simp only [step, hl, hget, if_false] at hr
    simp [isHtmlSpace] at hr
    split_ifs at hr <;> simp at hr <;> subst hr <;> rfl
  | raw e =>
    intro r hr
    simp [step] at hr
    subst hr; rfl
  | cdata n =>
    intro r hr
    simp [step] at hr
    subst hr; rfl
  | _ =>
    intro r hr
    simp [step, isHtmlSpace] at hr
    subst hr; rfl

theorem settled_of_mem_scanAll_newline (qs : List Scan) (s : Str) (r : Scan)
    (h : r ∈ scanAll qs (s ++ ['\n'])) : r.settled = true := by
  rw [scanAll_append] at h
  have h' : r ∈ (scanAll qs s).flatMap (fun q => step q '\n') := h
  obtain ⟨q, -, hq⟩ := List.mem_flatMap.mp h'
  exact step_newline q r hq

/-- The page around a body and an escaped file name has active content only if the
body has. -/
theorem unsafeMarkup_page (name body : Str) (hname : ∀ c ∈ name, c ≠ '<')
    (hbody : unsafeMarkup body = false) :
    unsafeMarkup (pageHead ++ "Markdown Preview Tool".toList ++ ":".toList ++ name ++
      pageMiddle ++ body ++ pageTail) = false := by
  have hsplit : pageHead ++ "Markdown Preview Tool".toList ++ ":".toList ++ name ++
      pageMiddle ++ body ++ pageTail ++ ['\n'] =
      (pageHead ++ "Markdown Preview Tool".toList ++ ":".toList) ++
        (name ++ (pageMiddle ++ ((body ++ ['\n']) ++ tailRest))) := by
    have : pageTail ++ ['\n'] = ['\n'] ++ tailRest := by decide
    simp only [List.append_assoc, this]
  have hname2 : scanAll [.data, .raw .title] name = [.data, .raw .title] := by
    have h : ([.data, .raw .title] : List Scan) = [.data] ++ [.raw .title] := rfl
    rw [h, scanAll_union, scanAll_of_no_lt _ (Or.inl rfl) _ hname,
      scanAll_of_no_lt _ (Or.inr rfl) _ hname]
  unfold unsafeMarkup at hbody ⊢
  rw [List.any_eq_false] at hbody ⊢
  intro x hx
  rw [hsplit, scanAll_append, scanAll_pageHead, scanAll_append, hname2, scanAll_append,
    scanAll_pageMiddle, scanAll_append] at hx
  obtain ⟨r, hr, hx⟩ := (mem_scanAll _ _ _).mp hx
  obtain ⟨q, hq, hr⟩ := (mem_scanAll _ _ _).mp hr
  have hq' : q = .data := by
    simp at hq
    exact hq
  subst hq'
  have hset := settled_of_mem_scanAll_newline _ _ _ hr
  have hclear := hbody r hr
  have hrest : r.resting = true := by
    unfold Scan.settled at hset
    cases hb : r.isBad
    · simpa [hb] using hset
    · exact absurd hb hclear
  have := resting_tail r hrest
  unfold allClear at this
  rw [List.all_eq_true] at this
  simpa using this x hx

theorem unsafeMarkup_of_no_lt (s : Str) (h : ∀ c ∈ s, c ≠ '<') : unsafeMarkup s = false := by
  unfold unsafeMarkup
  rw [scanAll_of_no_lt _ (Or.inl rfl) _ (by
    intro c hc
    rcases List.mem_append.mp hc with hc | hc
    · exact h c hc
    · simp at hc; subst hc; decide)]
  rfl

/-- The built-in page has active content only if the sanitized body has. -/
theorem unsafeMarkup_defaultPage (L : Libs) (input filename : Str)
    (h : unsafeMarkup (L.sanitizeBytes (L.blackfridayRun input)) = false) :
    unsafeMarkup (defaultPage L input filename) = false :=
  unsafeMarkup_page _ _ (htmlReplacer_no_lt _) h

/-! ## What `parseContent` does to the world -/

theorem parseContent_readError (L : Libs) (E : Env) (e : Error) (tFname filename : Str)
    (w : World) :
    parseContent L E (.error e) tFname filename w = (.error e, w.log .readAll) := by
  rfl

theorem parseContent_override_error (L : Libs) (E : Env) (input tFname filename : Str)
    (w : World) (e : Error) (ht : tFname ≠ []) (hp : E.parseFiles tFname = .error e) :
    parseContent L E (.ok input) tFname filename w =
      (.error e, (w.log .readAll).log (.parseFiles tFname)) := by
  unfold parseContent
  simp only [templateParse_default, ne_eq, ht, not_false_eq_true, if_true, hp]

theorem parseContent_override_ok (L : Libs) (E : Env) (input tFname filename : Str)
    (w : World) (t : Template) (ht : tFname ≠ []) (hp : E.parseFiles tFname = .ok t) :
    parseContent L E (.ok input) tFname filename w =
      (t.execute (renderContext L input filename),
        ((w.log .readAll).log (.parseFiles tFname)).log
          (.execute (renderContext L input filename))) := by
  unfold parseContent
  simp only [templateParse_default, ne_eq, ht, not_false_eq_true, if_true, hp, renderContext]
  cases t.execute _ <;> rfl

/-- The calls `parseContent` makes, and that it touches nothing but the trace. -/
theorem parseContent_world (L : Libs) (E : Env) (r : Reader) (tFname filename : Str)
    (w : World) :
    ∃ calls, (parseContent L E r tFname filename w).2 = { w with trace := w.trace ++ calls } ∧
      (∀ ev ∈ calls, ev.isRender = true) ∧
      (∀ c, Event.execute c ∈ calls →
        ∃ input, r = .ok input ∧ c = renderContext L input filename) ∧
      (∀ out, (parseContent L E r tFname filename w).1 = .ok out →
        ∃ input, r = .ok input ∧ Event.execute (renderContext L input filename) ∈ calls) := by
  cases r with
  | error e =>
    refine ⟨[.readAll], ?_, ?_, ?_, ?_⟩
    · rw [parseContent_readError]; rfl
    · intro ev hev; simp at hev; subst hev; rfl
    · intro c hc; simp at hc
    · intro out hout; rw [parseContent_readError] at hout; simp at hout
  | ok input =>
    by_cases ht : tFname = []
    · subst ht
      refine ⟨[.readAll, .execute (renderContext L input filename)], ?_, ?_, ?_, ?_⟩
      · rw [parseContent_default]; simp [World.log]
      · intro ev hev
        simp at hev
        rcases hev with h | h <;> (subst h; rfl)
      · intro c hc
        simp at hc
        exact ⟨input, rfl, hc⟩
      · intro out _
        exact ⟨input, rfl, by simp⟩
    · cases hp : E.parseFiles tFname with
      | error e =>
        refine ⟨[.readAll, .parseFiles tFname], ?_, ?_, ?_, ?_⟩
        · rw [parseContent_override_error L E input tFname filename w e ht hp]; simp [World.log]
        · intro ev hev
          simp at hev
          rcases hev with h | h <;> (subst h; rfl)
        · intro c hc; simp at hc
        · intro out hout
          rw [parseContent_override_error L E input tFname filename w e ht hp] at hout
          simp at hout
      | ok t =>
        refine ⟨[.readAll, .parseFiles tFname, .execute (renderContext L input filename)],
          ?_, ?_, ?_, ?_⟩
        · rw [parseContent_override_ok L E input tFname filename w t ht hp]; simp [World.log]
        · intro ev hev
          simp at hev
          rcases hev with h | h | h <;> (subst h; rfl)
        · intro c hc
          simp at hc
          exact ⟨input, rfl, hc⟩
        · intro out _
          exact ⟨input, rfl, by simp⟩

/-- The result of `parseContent` does not depend on the world. -/
theorem parseContent_result (L : Libs) (E : Env) (r : Reader) (tFname filename : Str)
    (w w' : World) :
    (parseContent L E r tFname filename w).1 = (parseContent L E r tFname filename w').1 := by
  cases r with
  | error e => rfl
  | ok input =>
    by_cases ht : tFname = []
    · subst ht
      rw [parseContent_default, parseContent_default]
    · cases hp : E.parseFiles tFname with
      | error e =>
        rw [parseContent_override_error L E input tFname filename w e ht hp,
          parseContent_override_error L E input tFname filename w' e ht hp]
      | ok t =>
        rw [parseContent_override_ok L E input tFname filename w t ht hp,
          parseContent_override_ok L E input tFname filename w' t ht hp]

/-! ## What `preview` and `run` do to the world -/

theorem preview_linux (E : Env) (fname : Str) (w : World) (h : E.goos = "linux".toList) :
    preview E fname w = launchViewer E "xdg-open".toList [fname] w := by
  unfold preview launchViewer
  rw [if_pos h]
  rfl

theorem preview_windows (E : Env) (fname : Str) (w : World)
    (h : E.goos = "windows".toList) :
    preview E fname w =
      launchViewer E "cmd.exe".toList ["/C".toList, "start".toList, fname] w := by
  have h1 : E.goos ≠ "linux".toList := by rw [h]; decide
  unfold preview launchViewer
  rw [if_neg h1, if_pos h]
  rfl

theorem preview_darwin (E : Env) (fname : Str) (w : World) (h : E.goos = "darwin".toList) :
    preview E fname w = launchViewer E "open".toList [fname] w := by
  have h1 : E.goos ≠ "linux".toList := by rw [h]; decide
  have h2 : E.goos ≠ "windows".toList := by rw [h]; decide
  unfold preview launchViewer
  rw [if_neg h1, if_neg h2, if_pos h]
  rfl

theorem preview_unknown (E : Env) (fname : Str) (w : World)
    (h1 : E.goos ≠ "linux".toList) (h2 : E.goos ≠ "windows".toList)
    (h3 : E.goos ≠ "darwin".toList) :
    preview E fname w = (some ⟨"OS not supported".toList⟩, w) := by
  unfold preview
  rw [if_neg h1, if_neg h2, if_neg h3]

theorem launchViewer_world (E : Env) (cName : Str) (cParams : List Str) (w : World) :
    ∃ calls, (launchViewer E cName cParams w).2 = { w with trace := w.trace ++ calls } ∧
      ∀ ev ∈ calls, ev.isViewer = true := by
  unfold launchViewer
  cases E.lookPath cName with
  | error e =>
    exact ⟨[.lookPath cName], rfl, by intro ev hev; simp at hev; subst hev; rfl⟩
  | ok cPath =>
    refine ⟨[.lookPath cName, .runCommand cPath cParams, .sleep 2], by simp [World.log], ?_⟩
    intro ev hev
    simp at hev
    rcases hev with h | h | h <;> (subst h; rfl)

theorem preview_world (E : Env) (fname : Str) (w : World) :
    ∃ calls, (preview E fname w).2 = { w with trace := w.trace ++ calls } ∧
      ∀ ev ∈ calls, ev.isViewer = true := by
  by_cases h1 : E.goos = "linux".toList
  · rw [preview_linux E fname w h1]; exact launchViewer_world _ _ _ _
  · by_cases h2 : E.goos = "windows".toList
    · rw [preview_windows E fname w h2]; exact launchViewer_world _ _ _ _
    · by_cases h3 : E.goos = "darwin".toList
      · rw [preview_darwin E fname w h3]; exact launchViewer_world _ _ _ _
      · rw [preview_unknown E fname w h1 h2 h3]
        exact ⟨[], by simp, by simp⟩

/-- The world in which `run` hands the rendered page to `saveHTML`. -/
theorem run_rendered (L : Libs) (E : Env) (filename tFname : Str) (skipPreview pipe : Bool)
    (w : World) (input : Reader) (htmlData outName : Str)
    (hopen : (if pipe = true then Except.ok E.stdin else E.osOpen filename) = .ok input)
    (hrender : (parseContent L E input tFname filename w).1 = .ok htmlData)
    (htemp : E.createTemp [] "mdp*.html".toList = .ok outName)
    (hclose : E.close outName = none) :
    ∃ before, (∀ ev ∈ before, ev.isRender = true ∨ ev = .osOpen filename) ∧
      ∃ w₂ : World, w₂.out = w.out ++ outName ++ ['\n'] ∧
        w₂.trace = w.trace ++ before ++
          [.createTemp [] "mdp*.html".toList, .close outName, .fprintln outName] ∧
        w₂.files outName = some ⟨[], 0o600⟩ ∧
        run L E filename tFname skipPreview pipe w =
          match saveHTML E outName htmlData w₂ with
          | (some err, w) => (some err, w)
          | (none, w) =>
            if skipPreview = true then (none, w)
            else ((preview E outName w).1, osRemove E outName (preview E outName w).2) := by
  obtain ⟨calls, hw, hcalls, -, -⟩ := parseContent_world L E input tFname filename
    (if pipe = true then w else w.log (.osOpen filename))
  have hres := parseContent_result L E input tFname filename
    (if pipe = true then w else w.log (.osOpen filename)) w
  rw [hrender] at hres
  cases pipe with
  | true =>
    simp only [if_true] at hopen hw hres
    injection hopen with hopen
    subst hopen
    have hpc : parseContent L E E.stdin tFname filename w =
        (.ok htmlData, { w with trace := w.trace ++ calls }) := Prod.ext hres hw
    refine ⟨calls, fun ev hev => Or.inl (hcalls ev hev), ?_⟩
    refine ⟨fprintlnOut outName ((({ w with trace := w.trace ++ calls }.log
      (.createTemp [] "mdp*.html".toList)).createFile outName).log (.close outName)),
      ?_, ?_, ?_, ?_⟩
    · simp [fprintlnOut, World.log, World.createFile]
    · simp [fprintlnOut, World.log, World.createFile]
    · simp [fprintlnOut, World.log, World.createFile]
    · unfold run
      simp only [if_true, hpc, htemp, hclose]
  | false =>
    simp only [Bool.false_eq_true, if_false] at hopen hw hres
    have hpc : parseContent L E input tFname filename (w.log (.osOpen filename)) =
        (.ok htmlData, { w.log (.osOpen filename) with
          trace := (w.log (.osOpen filename)).trace ++ calls }) := Prod.ext hres hw
    refine ⟨.osOpen filename :: calls, ?_, ?_⟩
    · intro ev hev
      rcases List.mem_cons.mp hev with h | h
      · exact Or.inr h
      · exact Or.inl (hcalls ev h)
    refine ⟨fprintlnOut outName ((({ w.log (.osOpen filename) with
      trace := (w.log (.osOpen filename)).trace ++ calls }.log
      (.createTemp [] "mdp*.html".toList)).createFile outName).log (.close outName)),
      ?_, ?_, ?_, ?_⟩
    · simp [fprintlnOut, World.log, World.createFile]
    · simp [fprintlnOut, World.log, World.createFile]
    · simp [fprintlnOut, World.log, World.createFile]
    · unfold run
      simp only [Bool.false_eq_true, if_false, hopen, hpc, htemp, hclose]

theorem osRemove_world (E : Env) (name : Str) (w : World) :
    (osRemove E name w).trace = w.trace ++ [.remove name] ∧ (osRemove E name w).out = w.out := by
  unfold osRemove
  split_ifs <;> exact ⟨rfl, rfl⟩

theorem saveHTML_error (E : Env) (name data : Str) (w : World) (err : Error)
    (h : E.writeFile name data FilePermissionReadWrite = some err) :
    saveHTML E name data w = (some err, w.log (.writeFile name data FilePermissionReadWrite)) := by
  simp only [saveHTML, osWriteFile, h]

theorem saveHTML_ok (E : Env) (name data : Str) (w : World)
    (h : E.writeFile name data FilePermissionReadWrite = none) :
    saveHTML E name data w =
      (none, (w.log (.writeFile name data FilePermissionReadWrite)).store name data
        FilePermissionReadWrite) := by
  simp only [saveHTML, osWriteFile, h]

/-- The stand-in sanitizer never returns active content. -/
theorem sampleLibs_safe (x : Str) : unsafeMarkup (sampleLibs.sanitizeBytes x) = false :=
  unsafeMarkup_of_no_lt _ (htmlReplacer_no_lt x)

/-- The run in which the page is rendered and the temporary file is created and
closed, by what `os.WriteFile` answers and by `skipPreview`. -/
theorem run_artifact (L : Libs) (E : Env) (filename tFname : Str) (skipPreview pipe : Bool)
    (w : World) (input : Reader) (htmlData outName : Str)
    (hopen : (if pipe = true then Except.ok E.stdin else E.osOpen filename) = .ok input)
    (hrender : (parseContent L E input tFname filename w).1 = .ok htmlData)
    (htemp : E.createTemp [] "mdp*.html".toList = .ok outName)
    (hclose : E.close outName = none) :
    ∃ before later, (∀ ev ∈ before, ev.isRender = true ∨ ev = .osOpen filename) ∧
      (∀ ev ∈ later, ev.isViewer = true) ∧
      (run L E filename tFname skipPreview pipe w).2.out = w.out ++ outName ++ ['\n'] ∧
      (run L E filename tFname skipPreview pipe w).2.trace =
        w.trace ++ before ++ artifactCalls outName htmlData ++ later ∧
      (∀ err, E.writeFile outName htmlData FilePermissionReadWrite = some err →
        (run L E filename tFname skipPreview pipe w).1 = some err ∧ later = []) ∧
      (E.writeFile outName htmlData FilePermissionReadWrite = none → skipPreview = true →
        (run L E filename tFname skipPreview pipe w).1 = none ∧ later = [] ∧
        (run L E filename tFname skipPreview pipe w).2.files outName =
          some ⟨htmlData, 0o600⟩) := by
  obtain ⟨before, hb, w₂, hout, htrace, hfile, hrun⟩ :=
    run_rendered L E filename tFname skipPreview pipe w input htmlData outName
      hopen hrender htemp hclose
  cases hwf : E.writeFile outName htmlData FilePermissionReadWrite with
  | some err =>
    rw [saveHTML_error E outName htmlData w₂ err hwf] at hrun
    simp only at hrun
    refine ⟨before, [], hb, by simp, ?_, ?_, ?_, ?_⟩
    · rw [hrun]; exact hout
    · rw [hrun]; simp [World.log, htrace, artifactCalls]
    · intro err' herr'
      injection herr' with h
      subst h
      exact ⟨by rw [hrun], rfl⟩
    · intro h; cases h
  | none =>
    rw [saveHTML_ok E outName htmlData w₂ hwf] at hrun
    simp only at hrun
    cases skipPreview with
    | true =>
      simp only [if_true] at hrun
      refine ⟨before, [], hb, by simp, ?_, ?_, ?_, ?_⟩
      · rw [hrun]; exact hout
      · rw [hrun]; simp [World.log, World.store, htrace, artifactCalls]
      · intro err' herr'; cases herr'
      · intro _ _
        refine ⟨by rw [hrun], rfl, ?_⟩
        rw [hrun]
        simp [World.log, World.store, hfile]
    | false =>
      simp only [Bool.false_eq_true, if_false] at hrun
      obtain ⟨calls, hpw, hcalls⟩ := preview_world E outName
        ((w₂.log (.writeFile outName htmlData FilePermissionReadWrite)).store outName htmlData
          FilePermissionReadWrite)
      obtain ⟨hrt, hro⟩ := osRemove_world E outName (preview E outName
        ((w₂.log (.writeFile outName htmlData FilePermissionReadWrite)).store outName htmlData
          FilePermissionReadWrite)).2
      refine ⟨before, calls ++ [.remove outName], hb, ?_, ?_, ?_, ?_, ?_⟩
      · intro ev hev
        rcases List.mem_append.mp hev with h | h
        · exact hcalls ev h
        · simp at h; subst h; rfl
      · rw [hrun]
        show (osRemove E outName _).out = _
        rw [hro, hpw]
        exact hout
      · rw [hrun]
        show (osRemove E outName _).trace = _
        rw [hrt, hpw]
        simp [World.log, World.store, htrace, artifactCalls]
      · intro err' herr'; cases herr'
      · intro _ h; cases h

/-! ## The claims -/

/-- C1: with no template override, whatever the input and the display name,
`parseContent` returns a page, and the page holds no `script` tag, no `on*`
attribute and no `javascript:` URL in a URL attribute, whichever way a browser may
tokenise it, provided the sanitizer never returns a document that holds one. The
escaping of `Title` and `Filename` is that of the engine, not a hypothesis. -/
theorem rendered_page_safe (L : Libs) (E : Env) (input filename : Str) (w : World)
    (hsan : ∀ x, unsafeMarkup (L.sanitizeBytes x) = false) :
    ∃ out, (parseContent L E (.ok input) [] filename w).1 = .ok out ∧
      unsafeMarkup out = false := by
  refine ⟨defaultPage L input filename, ?_, ?_⟩
  · rw [parseContent_default]
  · exact unsafeMarkup_defaultPage L input filename (hsan _)

theorem rendered_page_safe_witness :
    (∀ x, unsafeMarkup (sampleLibs.sanitizeBytes x) = false) ∧
    ∃ out, (parseContent sampleLibs sampleEnv
        (.ok "<script>alert(1)</script>".toList) [] "<script>.md".toList World.empty).1
          = .ok out ∧ unsafeMarkup out = false :=
  ⟨sampleLibs_safe, rendered_page_safe sampleLibs sampleEnv _ _ _ sampleLibs_safe⟩

/-- C2: every content record `parseContent` hands to a template has as `Body`
the sanitized transform of the input, whatever the template path and the display
name; an output is returned only through such an execution, and with an override
template it is what that template yields on the record. -/
theorem body_is_sanitized (L : Libs) (E : Env) (r : Reader) (tFname filename : Str)
    (w : World) :
    ∃ calls, (parseContent L E r tFname filename w).2.trace = w.trace ++ calls ∧
      (∀ c, Event.execute c ∈ calls →
        ∃ input, r = .ok input ∧ c.Body = L.sanitizeBytes (L.blackfridayRun input)) ∧
      (∀ out, (parseContent L E r tFname filename w).1 = .ok out →
        ∃ c, Event.execute c ∈ calls) ∧
      (∀ t input, tFname ≠ [] → E.parseFiles tFname = .ok t → r = .ok input →
        (parseContent L E r tFname filename w).1 =
          t.execute
            { Filename := filepathBase filename
              Title := "Markdown Preview Tool".toList
              Body := L.sanitizeBytes (L.blackfridayRun input) }) := by
  obtain ⟨calls, hw, -, hexec, hout⟩ := parseContent_world L E r tFname filename w
  refine ⟨calls, by rw [hw], ?_, ?_, ?_⟩
  · intro c hc
    obtain ⟨input, hr, hc⟩ := hexec c hc
    exact ⟨input, hr, by rw [hc]; rfl⟩
  · intro out ho
    obtain ⟨input, -, hc⟩ := hout out ho
    exact ⟨_, hc⟩
  · intro t input ht hp hr
    subst hr
    rw [parseContent_override_ok L E input tFname filename w t ht hp]
    rfl

theorem body_is_sanitized_witness :
    (parseContent sampleLibs overrideEnv (.ok "# Hello".toList) "page.tmpl".toList
        "docs/README.md".toList World.empty).1 =
      .ok (sampleLibs.sanitizeBytes (sampleLibs.blackfridayRun "# Hello".toList)) ∧
    ∃ calls, (parseContent sampleLibs overrideEnv (.ok "# Hello".toList) "page.tmpl".toList
        "docs/README.md".toList World.empty).2.trace = World.empty.trace ++ calls ∧
      (∀ c, Event.execute c ∈ calls →
        ∃ input, (Except.ok "# Hello".toList : Reader) = .ok input ∧
          c.Body = sampleLibs.sanitizeBytes (sampleLibs.blackfridayRun input)) ∧
      (∃ c, Event.execute c ∈ calls) := by
  have hp : overrideEnv.parseFiles "page.tmpl".toList = .ok ⟨fun c => .ok c.Body⟩ := by
    rfl
  obtain ⟨calls, htrace, hbody, hreach, hres⟩ :=
    body_is_sanitized sampleLibs overrideEnv (.ok "# Hello".toList) "page.tmpl".toList
      "docs/README.md".toList World.empty
  have hout := hres _ "# Hello".toList (by decide) hp rfl
  exact ⟨hout, calls, htrace, hbody, hreach _ hout⟩

/-- C3: when the override template cannot be parsed, `parseContent` returns
that error, without executing any template; `run` then returns an error (the parse
error once the input has been read), creates no temporary file and writes nothing
to `out`: the only calls are those that open and read the input and parse the
template. -/
theorem override_parse_error (L : Libs) (E : Env) (input filename tFname : Str)
    (skipPreview pipe : Bool) (w : World) (e : Error)
    (ht : tFname ≠ []) (hp : E.parseFiles tFname = .error e) :
    parseContent L E (.ok input) tFname filename w =
      (.error e, (w.log .readAll).log (.parseFiles tFname)) ∧
    (∃ err, (run L E filename tFname skipPreview pipe w).1 = some err) ∧
    ((if pipe = true then Except.ok E.stdin else E.osOpen filename) = .ok (.ok input) →
      (run L E filename tFname skipPreview pipe w).1 = some e) ∧
    (run L E filename tFname skipPreview pipe w).2.out = w.out ∧
    (run L E filename tFname skipPreview pipe w).2.files = w.files ∧
    ∃ calls, (run L E filename tFname skipPreview pipe w).2.trace = w.trace ++ calls ∧
      ∀ ev ∈ calls, ev = .osOpen filename ∨ ev = .readAll ∨ ev = .parseFiles tFname := by
  refine ⟨parseContent_override_error L E input tFname filename w e ht hp, ?_⟩
  have key : ∀ (r : Reader) (w₀ : World),
      ∃ err calls, parseContent L E r tFname filename w₀ =
          (.error err, { w₀ with trace := w₀.trace ++ calls }) ∧
        (r = .ok input → err = e) ∧
        ∀ ev ∈ calls, ev = .osOpen filename ∨ ev = .readAll ∨ ev = .parseFiles tFname := by
    intro r w₀
    cases r with
    | error e' =>
      refine ⟨e', [.readAll], ?_, ?_, ?_⟩
      · rw [parseContent_readError]; rfl
      · intro h; cases h
      · intro ev hev
        simp at hev
        exact Or.inr (Or.inl hev)
    | ok inp =>
      refine ⟨e, [.readAll, .parseFiles tFname], ?_, fun _ => rfl, ?_⟩
      · rw [parseContent_override_error L E inp tFname filename w₀ e ht hp]
        simp [World.log]
      · intro ev hev
        simp at hev
        rcases hev with h | h
        · exact Or.inr (Or.inl h)
        · exact Or.inr (Or.inr h)
  cases pipe with
  | true =>
    obtain ⟨err, calls, hpc, herr, hcalls⟩ := key E.stdin w
    have hrun : run L E filename tFname skipPreview true w =
        (some err, { w with trace := w.trace ++ calls }) := by
      unfold run
      simp only [if_true, hpc]
    rw [hrun]
    refine ⟨⟨err, rfl⟩, ?_, rfl, rfl, calls, rfl, hcalls⟩
    intro h
    simp only [if_true] at h
    injection h with h
    rw [herr h]
  | false =>
    cases ho : E.osOpen filename with
    | error e' =>
      have hrun : run L E filename tFname skipPreview false w =
          (some e', w.log (.osOpen filename)) := by
        unfold run
        simp only [Bool.false_eq_true, if_false, ho]
      rw [hrun]
      refine ⟨⟨e', rfl⟩, ?_, rfl, rfl, [.osOpen filename], rfl, ?_⟩
      · intro h
        simp at h
      · intro ev hev
        simp at hev
        exact Or.inl hev
    | ok r =>
      obtain ⟨err, calls, hpc, herr, hcalls⟩ := key r (w.log (.osOpen filename))
      have hrun : run L E filename tFname skipPreview false w =
          (some err, { w.log (.osOpen filename) with
            trace := (w.log (.osOpen filename)).trace ++ calls }) := by
        unfold run
        simp only [Bool.false_eq_true, if_false, ho, hpc]
      rw [hrun]
      refine ⟨⟨err, rfl⟩, ?_, rfl, rfl, .osOpen filename :: calls, by simp [World.log], ?_⟩
      · intro h
        simp only [Bool.false_eq_true, if_false] at h
        injection h with h
        rw [herr h]
      · intro ev hev
        rcases List.mem_cons.mp hev with h | h
        · exact Or.inl h
        · exact hcalls ev h

theorem override_parse_error_witness :
    "missing.tmpl".toList ≠ [] ∧
    sampleEnv.parseFiles "missing.tmpl".toList =
      .error ⟨"open: no such file or directory".toList⟩ ∧
    (run sampleLibs sampleEnv "docs/README.md".toList "missing.tmpl".toList false false
      World.empty).1 = some ⟨"open: no such file or directory".toList⟩ ∧
    (run sampleLibs sampleEnv "docs/README.md".toList "missing.tmpl".toList false false
      World.empty).2.out = [] :=
  ⟨by decide, rfl,
    (override_parse_error sampleLibs sampleEnv "# Hello".toList "docs/README.md".toList
      "missing.tmpl".toList false false World.empty _ (by decide) rfl).2.2.1 (by rfl),
    (override_parse_error sampleLibs sampleEnv "# Hello".toList "docs/README.md".toList
      "missing.tmpl".toList false false World.empty _ (by decide) rfl).2.2.2.1⟩

/-- C4, as the code has it: the `Filename` of every content record `parseContent`
hands to a template is `filepath.Base` of the display name, which is never empty
and is `.` for the empty display name. -/
theorem filename_is_base (L : Libs) (E : Env) (r : Reader) (tFname filename : Str)
    (w : World) :
    (∃ calls, (parseContent L E r tFname filename w).2.trace = w.trace ++ calls ∧
      ∀ c, Event.execute c ∈ calls → c.Filename = filepathBase filename) ∧
    filepathBase filename ≠ [] ∧ filepathBase [] = ".".toList := by
  obtain ⟨calls, hw, -, hexec, -⟩ := parseContent_world L E r tFname filename w
  refine ⟨⟨calls, by rw [hw], ?_⟩, ?_, rfl⟩
  · intro c hc
    obtain ⟨input, -, hc⟩ := hexec c hc
    rw [hc]; rfl
  · unfold filepathBase
    by_cases h1 : filename = []
    · simp [h1]
    · by_cases h2 : lastElement (stripTrailingSeparators filename) = []
      · simp [h1, h2]
      · simp [h1, h2]

theorem filename_is_base_witness :
    (∃ calls, (parseContent sampleLibs sampleEnv (.ok "# Hello".toList) []
        "docs/README.md".toList World.empty).2.trace = World.empty.trace ++ calls ∧
      ∀ c, Event.execute c ∈ calls → c.Filename = filepathBase "docs/README.md".toList) ∧
    filepathBase "docs/README.md".toList ≠ [] ∧ filepathBase [] = ".".toList :=
  filename_is_base sampleLibs sampleEnv (.ok "# Hello".toList) [] "docs/README.md".toList
    World.empty

/-- C4 fails as stated: in pipe mode with an empty display name the `Filename`
handed to the template is `.`, not the empty string. -/
theorem filename_empty_counterexample :
    ∃ c, Event.execute c ∈
        (parseContent sampleLibs sampleEnv sampleEnv.stdin [] [] World.empty).2.trace ∧
      c.Filename = ".".toList ∧ c.Filename ≠ [] := by
  have h : (parseContent sampleLibs sampleEnv sampleEnv.stdin [] [] World.empty).2.trace =
      [.readAll, .execute (renderContext sampleLibs "plain text".toList [])] := by
    have hs : sampleEnv.stdin = .ok "plain text".toList := rfl
    rw [hs, parseContent_default]
    rfl
  rw [h]
  exact ⟨renderContext sampleLibs "plain text".toList [], List.mem_cons_of_mem _
    (List.mem_singleton.mpr rfl), rfl, by decide⟩

/-- The page of the built-in template: with no template override `parseContent`
returns the text of the template with `Title` replaced by `Markdown Preview Tool`,
`Filename` by the escaped `Filename` and `Body` by the sanitized body as it is, and
the page holds the title in a `title` element. What the body is for a given input
is the libraries' matter. -/
theorem default_page_text (L : Libs) (E : Env) (input filename : Str) (w : World) :
    defaultTemplate =
      pageHead ++ "\x7b\x7b.Title\x7d\x7d".toList ++ ":".toList ++
        "\x7b\x7b.Filename\x7d\x7d".toList ++ pageMiddle ++ "\x7b\x7b.Body\x7d\x7d".toList ++
        pageTail ∧
    (parseContent L E (.ok input) [] filename w).1 =
      .ok (pageHead ++ "Markdown Preview Tool".toList ++ ":".toList ++
        htmlReplacer (filepathBase filename) ++ pageMiddle ++
        L.sanitizeBytes (L.blackfridayRun input) ++ pageTail) ∧
    ("<title>Markdown Preview Tool:".toList ++ htmlReplacer (filepathBase filename) ++
      "</title>".toList) <:+: defaultPage L input filename := by
  have hp := parseContent_default L E input filename w
  refine ⟨by rfl, by rw [hp]; rfl, ?_⟩
  refine ⟨("<!DOCTYPE html>\n<html>\n\n<head>\n" ++
    "  <meta http-equiv=\"content-type\" content=\"text/html; charset=utf-8\">\n" ++
    "  ").toList, "\n</head>\n\n<body>\n".toList ++
    L.sanitizeBytes (L.blackfridayRun input) ++ pageTail, ?_⟩
  simp only [defaultPage, pageHead, pageMiddle, String.toList, List.append_assoc,
    List.cons_append, List.nil_append]
  rfl

/-- C6: with no template override the output of `parseContent` is a function of
the input and the display name alone: it is returned, and it is the same in any
two environments and any two worlds. -/
theorem parseContent_deterministic (L : Libs) (E₁ E₂ : Env) (w₁ w₂ : World)
    (input filename : Str) :
    (parseContent L E₁ (.ok input) [] filename w₁).1 =
      (parseContent L E₂ (.ok input) [] filename w₂).1 ∧
    ∃ out, (parseContent L E₁ (.ok input) [] filename w₁).1 = .ok out := by
  rw [parseContent_default, parseContent_default]
  exact ⟨rfl, _, rfl⟩

/-- C7: in `main` the template path handed to `run` is the value of
`MDP_TEMPLATE` when that is not empty, whatever the flag `-t`, and the value of the
flag `-t` when `MDP_TEMPLATE` is empty or unset. -/
theorem template_path_precedence (L : Libs) (E : Env) (flags : Flags) (w : World) :
    (E.getenv "MDP_TEMPLATE".toList ≠ [] →
      main L E flags w =
        if flags.file = [] ∧ flags.pipe = false then (1, flagUsage E w)
        else exitWith
          (run L E flags.file (E.getenv "MDP_TEMPLATE".toList) flags.s flags.pipe w)) ∧
    (E.getenv "MDP_TEMPLATE".toList = [] →
      main L E flags w =
        if flags.file = [] ∧ flags.pipe = false then (1, flagUsage E w)
        else exitWith (run L E flags.file flags.t flags.s flags.pipe w)) := by
  constructor
  · intro h
    simp only [main, ne_eq, h, not_false_eq_true, if_true]
  · intro h
    simp only [main, ne_eq, h, not_true_eq_false, if_false]

theorem template_path_precedence_witness :
    (templateEnv.getenv "MDP_TEMPLATE".toList ≠ [] ∧
      main sampleLibs templateEnv ⟨"docs/README.md".toList, true, "flag.tmpl".toList, false⟩
          World.empty =
        if "docs/README.md".toList = [] ∧ false = false then (1, flagUsage templateEnv World.empty)
        else exitWith (run sampleLibs templateEnv "docs/README.md".toList
          (templateEnv.getenv "MDP_TEMPLATE".toList) true false World.empty)) ∧
    (sampleEnv.getenv "MDP_TEMPLATE".toList = [] ∧
      main sampleLibs sampleEnv ⟨"docs/README.md".toList, true, "flag.tmpl".toList, false⟩
          World.empty =
        if "docs/README.md".toList = [] ∧ false = false then (1, flagUsage sampleEnv World.empty)
        else exitWith (run sampleLibs sampleEnv "docs/README.md".toList
          "flag.tmpl".toList true false World.empty)) :=
  ⟨⟨by decide, (template_path_precedence sampleLibs templateEnv
      ⟨"docs/README.md".toList, true, "flag.tmpl".toList, false⟩ World.empty).1 (by decide)⟩,
    ⟨rfl, (template_path_precedence sampleLibs sampleEnv
      ⟨"docs/README.md".toList, true, "flag.tmpl".toList, false⟩ World.empty).2 rfl⟩⟩

/-- C8: when the page is rendered and the temporary file is created and closed,
`run` hands `out` exactly the artifact path and a newline, after the file is
created and closed and before `os.WriteFile` is called; when that write fails `run`
returns its error and makes no further call, so no viewer is launched. -/
theorem path_printed_before_write (L : Libs) (E : Env) (filename tFname : Str)
    (skipPreview pipe : Bool) (w : World) (input : Reader) (htmlData outName : Str)
    (hopen : (if pipe = true then Except.ok E.stdin else E.osOpen filename) = .ok input)
    (hrender : (parseContent L E input tFname filename w).1 = .ok htmlData)
    (htemp : E.createTemp [] "mdp*.html".toList = .ok outName)
    (hclose : E.close outName = none) :
    (run L E filename tFname skipPreview pipe w).2.out = w.out ++ outName ++ ['\n'] ∧
    (∃ before later,
      (run L E filename tFname skipPreview pipe w).2.trace =
        w.trace ++ before ++
          [.createTemp [] "mdp*.html".toList, .close outName, .fprintln outName,
            .writeFile outName htmlData 0o644] ++ later ∧
      (∀ ev ∈ before, ev.isRender = true ∨ ev = .osOpen filename) ∧
      (∀ ev ∈ later, ev.isViewer = true) ∧
      (∀ err, E.writeFile outName htmlData 0o644 = some err →
        (run L E filename tFname skipPreview pipe w).1 = some err ∧ later = [])) := by
  obtain ⟨before, later, hb, hl, hout, htrace, herr, -⟩ :=
    run_artifact L E filename tFname skipPreview pipe w input htmlData outName
      hopen hrender htemp hclose
  exact ⟨hout, before, later, htrace, hb, hl, herr⟩

theorem path_printed_before_write_witness :
    (run sampleLibs fullDiskEnv "docs/README.md".toList [] false false World.empty).2.out =
      "/tmp/mdp42.html\n".toList ∧
    ∃ before later,
      (run sampleLibs fullDiskEnv "docs/README.md".toList [] false false
          World.empty).2.trace =
        World.empty.trace ++ before ++
          [.createTemp [] "mdp*.html".toList, .close "/tmp/mdp42.html".toList,
            .fprintln "/tmp/mdp42.html".toList,
            .writeFile "/tmp/mdp42.html".toList
              (defaultPage sampleLibs "# Hello".toList "docs/README.md".toList) 0o644] ++
          later ∧
      (∀ ev ∈ before, ev.isRender = true ∨ ev = .osOpen "docs/README.md".toList) ∧
      (∀ ev ∈ later, ev.isViewer = true) ∧
      (∀ err, fullDiskEnv.writeFile "/tmp/mdp42.html".toList
          (defaultPage sampleLibs "# Hello".toList "docs/README.md".toList) 0o644 = some err →
        (run sampleLibs fullDiskEnv "docs/README.md".toList [] false false
          World.empty).1 = some err ∧ later = []) :=
  path_printed_before_write sampleLibs fullDiskEnv "docs/README.md".toList [] false false
    World.empty (.ok "# Hello".toList)
    (defaultPage sampleLibs "# Hello".toList "docs/README.md".toList)
    "/tmp/mdp42.html".toList (by rfl)
    (by rw [parseContent_default]) rfl rfl

/-- The run with `skipPreview` set in which the page is rendered, the temporary
file is created and closed and the write succeeds: `run` returns `nil`; its calls are
those that read and render the input and those that create, close, print and write
the artifact, none of them a lookup, a launch or a removal; the artifact holds
exactly the rendered page, and its mode is the 0600 that `os.CreateTemp` gave it,
`os.WriteFile` leaving the mode of an existing file as it is. -/
theorem run_skip_preview (L : Libs) (E : Env) (filename tFname : Str)
    (pipe : Bool) (w : World) (input : Reader) (htmlData outName : Str)
    (hopen : (if pipe = true then Except.ok E.stdin else E.osOpen filename) = .ok input)
    (hrender : (parseContent L E input tFname filename w).1 = .ok htmlData)
    (htemp : E.createTemp [] "mdp*.html".toList = .ok outName)
    (hclose : E.close outName = none)
    (hwrite : E.writeFile outName htmlData FilePermissionReadWrite = none) :
    (run L E filename tFname true pipe w).1 = none ∧
    (∃ before,
      (run L E filename tFname true pipe w).2.trace =
        w.trace ++ before ++
          [.createTemp [] "mdp*.html".toList, .close outName, .fprintln outName,
            .writeFile outName htmlData 0o644] ∧
      (∀ ev ∈ before, ev.isRender = true ∨ ev = .osOpen filename) ∧
      (∀ ev ∈ before ++
          [.createTemp [] "mdp*.html".toList, .close outName, .fprintln outName,
            .writeFile outName htmlData 0o644], ev.isViewer = false)) ∧
    (run L E filename tFname true pipe w).2.files outName = some ⟨htmlData, 0o600⟩ := by
  obtain ⟨before, later, hb, -, -, htrace, -, hok⟩ :=
    run_artifact L E filename tFname true pipe w input htmlData outName
      hopen hrender htemp hclose
  obtain ⟨hres, hlater, hfile⟩ := hok hwrite rfl
  subst hlater
  refine ⟨hres, ⟨before, by simpa [artifactCalls] using htrace, hb, ?_⟩, hfile⟩
  intro ev hev
  rcases List.mem_append.mp hev with h | h
  · rcases hb ev h with h' | h'
    · cases ev <;> simp_all [Event.isRender, Event.isViewer]
    · subst h'; rfl
  · simp at h
    rcases h with h | h | h | h <;> (subst h; rfl)

/-- C9, where the code departs from it: in the run `run("", "", out, true, true)`
on the standard input `plain text`, every call succeeding, `run` returns `nil`, no
viewer is launched, nothing is removed and the artifact holds the rendered page, but
the mode of the artifact is 0600 and not the 0644 of `FilePermissionReadWrite`: the
file exists when `os.WriteFile` is called, so the permission it is given is not
applied. -/
theorem skip_preview_artifact_mode :
    (run sampleLibs sampleEnv [] [] true true World.empty).1 = none ∧
    (run sampleLibs sampleEnv [] [] true true World.empty).2.trace =
      [.readAll, .execute (renderContext sampleLibs "plain text".toList []),
        .createTemp [] "mdp*.html".toList, .close "/tmp/mdp42.html".toList,
        .fprintln "/tmp/mdp42.html".toList,
        .writeFile "/tmp/mdp42.html".toList (defaultPage sampleLibs "plain text".toList [])
          FilePermissionReadWrite] ∧
    (run sampleLibs sampleEnv [] [] true true World.empty).2.files "/tmp/mdp42.html".toList =
      some ⟨defaultPage sampleLibs "plain text".toList [], 0o600⟩ ∧
    FilePermissionReadWrite = 0o644 ∧ (0o600 : Nat) ≠ FilePermissionReadWrite := by
  have h := run_skip_preview sampleLibs sampleEnv [] [] true World.empty
    (.ok "plain text".toList) (defaultPage sampleLibs "plain text".toList [])
    "/tmp/mdp42.html".toList (by rfl) (by rw [parseContent_default]) rfl rfl rfl
  refine ⟨h.1, ?_, h.2.2, rfl, by decide⟩
  unfold run
  simp only [if_true]
  have hs : sampleEnv.stdin = .ok "plain text".toList := rfl
  rw [hs, parseContent_default]
  rfl

/-- C10: on a platform other than `linux`, `windows` and `darwin`, `preview`
returns the error `OS not supported` and leaves the world as it was: nothing is
looked up or launched.  On the three it looks up `xdg-open`, `cmd.exe` (with
parameters `/C start`) and `open`, and runs the command found with the artifact
path as last parameter. -/
theorem preview_platforms (E : Env) (fname : Str) (w : World) :
    (E.goos ≠ "linux".toList → E.goos ≠ "windows".toList → E.goos ≠ "darwin".toList →
      preview E fname w = (some ⟨"OS not supported".toList⟩, w)) ∧
    (E.goos = "linux".toList →
      preview E fname w = launchViewer E "xdg-open".toList [fname] w) ∧
    (E.goos = "windows".toList →
      preview E fname w =
        launchViewer E "cmd.exe".toList ["/C".toList, "start".toList, fname] w) ∧
    (E.goos = "darwin".toList →
      preview E fname w = launchViewer E "open".toList [fname] w) ∧
    (∀ cName cParams cPath, E.lookPath cName = .ok cPath →
      launchViewer E cName cParams w =
        (E.runCommand cPath cParams,
          { w with trace := w.trace ++
              [.lookPath cName, .runCommand cPath cParams, .sleep 2] })) ∧
    (∀ cName cParams err, E.lookPath cName = .error err →
      launchViewer E cName cParams w = (some err, w.log (.lookPath cName))) := by
  refine ⟨preview_unknown E fname w, preview_linux E fname w, preview_windows E fname w,
    preview_darwin E fname w, ?_, ?_⟩
  · intro cName cParams cPath h
    simp [launchViewer, h, World.log]
  · intro cName cParams err h
    simp [launchViewer, h]

theorem preview_platforms_witness :
    (plan9Env.goos ≠ "linux".toList ∧ plan9Env.goos ≠ "windows".toList ∧
      plan9Env.goos ≠ "darwin".toList ∧
      preview plan9Env "/tmp/mdp42.html".toList World.empty =
        (some ⟨"OS not supported".toList⟩, World.empty)) ∧
    (sampleEnv.goos = "linux".toList ∧
      preview sampleEnv "/tmp/mdp42.html".toList World.empty =
        launchViewer sampleEnv "xdg-open".toList ["/tmp/mdp42.html".toList] World.empty) :=
  ⟨⟨by decide, by decide, by decide,
      (preview_platforms plan9Env "/tmp/mdp42.html".toList World.empty).1
        (by decide) (by decide) (by decide)⟩,
    ⟨rfl, (preview_platforms sampleEnv "/tmp/mdp42.html".toList World.empty).2.1 rfl⟩⟩

end Mdp
